import Mathlib

/-!
Verification of the badgr-server staff-permission, email, terms-agreement and
federated-login logic, as a shallow embedding of the Python sources in
`apps/staff/mixins.py`, `apps/badgeuser/models.py` and
`apps/badgrsocialauth/providers/surf_conext/views.py`.

Python dictionaries are modelled as association lists (keys in insertion
order, lookup is first match), `None` as `Option.none`, uncaught exceptions
as the `none` of an outer `Option` or the `error` of an `Except`, and the
database tables the code touches as explicit record lists threaded through
the operations.
-/

namespace BadgrStaff

/-- A permission dictionary: keys in insertion order mapped to values
(the permission flags compared with `>` in `get_permissions`). -/
abbrev Perms := List (String × Nat)

/-- First-match lookup, i.e. `d[key]` on a Python dict modelled as an
association list: `none` models a `KeyError`. -/
def lookupPerm : Perms → String → Option Nat
  | [], _ => none
  | (k, v) :: rest, key => if k = key then some v else lookupPerm rest key

/-- The key list of a permission dictionary, in order. -/
def permKeys (p : Perms) : List String := p.map Prod.fst

/-- A staff membership row: `staff.user` and `staff.permissions`
(from the Staff model referenced by `PermissionedModelMixin`). -/
structure Staff where
  user : Nat
  permissions : Perms
deriving Repr, DecidableEq

/-- Embeds `PermissionedModelMixin.get_staff_member`: the first staff item whose
`user` equals the given user, `none` when there is none. -/
def get_staff_member (staffItems : List Staff) (user : Nat) : Option Staff :=
  staffItems.find? (fun s => s.user == user)

/-- Embeds `PermissionedModelMixin._get_local_permissions`: the found staff
member's permission dict, else `None`. -/
def get_local_permissions (staffItems : List Staff) (user : Nat) : Option Perms :=
  (get_staff_member staffItems user).map (·.permissions)

/-- Python truthiness of a perms-dict-or-None: `None` and the empty dict
are falsy. -/
def permsTruthy : Option Perms → Bool
  | none => false
  | some l => !l.isEmpty

/-- The `combined_perms` loop of `get_permissions`: for each key of
`local_perms`, in order, `combined_perms[key] = local_perms[key] if
local_perms[key] > parent_perms[key] else parent_perms[key]`; a key of
`local_perms` missing from `parent_perms` raises `KeyError`, modelled as
`none`. -/
def combinePerms : Perms → Perms → Option Perms
  | [], _ => some []
  | (k, v) :: rest, parentPerms =>
    match lookupPerm parentPerms k, combinePerms rest parentPerms with
    | some pv, some restCombined =>
        some ((k, if v > pv then v else pv) :: restCombined)
    | _, _ => none

/-- The organizational tree seen from one node: `leaf` is a node whose
`self.parent` raises `AttributeError` (an Institution), `branch` a node
with a parent. Each node carries its staff items. -/
inductive PermTree where
  | leaf (staffItems : List Staff)
  | branch (staffItems : List Staff) (parent : PermTree)
deriving Repr, DecidableEq

/-- The body of `get_permissions` after the recursive call succeeded:
`if not parent_perms: return local_perms; elif not local_perms: return
parent_perms; else: ...` with the merge loop, whose `KeyError` escapes as
the outer `none`. -/
def permStep (localPerms parentPerms : Option Perms) : Option (Option Perms) :=
  if permsTruthy parentPerms = false then some localPerms
  else if permsTruthy localPerms = false then some parentPerms
  else
    match localPerms, parentPerms with
    | some l, some p =>
      (match combinePerms l p with
       | some combined => some (some combined)
       | none => none)
    | _, _ => none

/-- Embeds `PermissionedModelMixin.get_permissions`. The outer `Option` is
exception propagation: `none` models an uncaught `KeyError` escaping from
the merge loop (the `except` clause only catches the `AttributeError` of a
missing `parent`, which is the `leaf` case). The inner `Option Perms` is
the returned dictionary-or-None. -/
def get_permissions (user : Nat) : PermTree → Option (Option Perms)
  | .leaf staffItems => some (get_local_permissions staffItems user)
  | .branch staffItems parent =>
    match get_permissions user parent with
    | none => none
    | some parentPerms => permStep (get_local_permissions staffItems user) parentPerms

/-- Lookup lifted to a dictionary-or-None: a key of `None` has no value. -/
def olookup : Option Perms → String → Option Nat
  | none, _ => none
  | some p, key => lookupPerm p key

/-- Per-key "max wins" merge of two optional values, as the specification
describes it: both present gives the maximum, one present gives it
unchanged, neither gives nothing. -/
def maxMergeVal : Option Nat → Option Nat → Option Nat
  | some a, some b => some (max a b)
  | some a, none => some a
  | none, some b => some b
  | none, none => none

/-- Every staff permission dictionary in the tree has exactly the key
list `ks` (the uniform permission-flag schema shared by the Staff
models of Institution, Faculty, Issuer and BadgeClass). -/
def UniformKeys (ks : List String) : PermTree → Prop
  | .leaf staffItems => ∀ s ∈ staffItems, permKeys s.permissions = ks
  | .branch staffItems parent =>
      (∀ s ∈ staffItems, permKeys s.permissions = ks) ∧ UniformKeys ks parent

instance instDecUniformKeys (ks : List String) :
    (t : PermTree) → Decidable (UniformKeys ks t)
  | .leaf staffItems => by unfold UniformKeys; infer_instance
  | .branch staffItems parent => by
      unfold UniformKeys
      have := instDecUniformKeys ks parent
      infer_instance

end BadgrStaff

namespace BadgrStaff

@[simp]
theorem permKeys_nil : permKeys [] = [] := rfl

@[simp]
theorem permKeys_cons (k : String) (v : Nat) (rest : Perms) :
    permKeys ((k, v) :: rest) = k :: permKeys rest := rfl

theorem lookupPerm_isSome_iff (p : Perms) (k : String) :
    (lookupPerm p k).isSome ↔ k ∈ permKeys p := by
  induction p with
  | nil => simp [lookupPerm]
  | cons kv rest ih =>
    obtain ⟨k0, v0⟩ := kv
    by_cases h : k0 = k
    · subst h
      simp [lookupPerm]
    · simp [lookupPerm, h, ih, List.mem_cons]
      exact fun h0 => absurd h0.symm h

theorem lookupPerm_eq_none_iff (p : Perms) (k : String) :
    lookupPerm p k = none ↔ k ∉ permKeys p := by
  rw [← lookupPerm_isSome_iff]
  cases lookupPerm p k <;> simp

@[simp]
theorem permsTruthy_none : permsTruthy none = false := rfl

theorem permsTruthy_some_of_ne_nil (l : Perms) (h : l ≠ []) :
    permsTruthy (some l) = true := by
  cases l with
  | nil => exact absurd rfl h
  | cons a t => rfl

theorem get_permissions_branch_eq (u : Nat) (si : List Staff) (parent : PermTree)
    (pr : Option Perms) (h : get_permissions u parent = some pr) :
    get_permissions u (.branch si parent) =
      permStep (get_local_permissions si u) pr := by
  conv_lhs => unfold get_permissions
  simp only [h]

theorem combinePerms_spec (l p : Perms)
    (h : ∀ k ∈ permKeys l, k ∈ permKeys p) :
    ∃ m, combinePerms l p = some m ∧ permKeys m = permKeys l ∧
      ∀ k, lookupPerm m k =
        (lookupPerm l k).bind fun v => (lookupPerm p k).map fun pv => max v pv := by
  induction l with
  | nil => exact ⟨[], rfl, rfl, fun k => rfl⟩
  | cons kv rest ih =>
    obtain ⟨k0, v0⟩ := kv
    have hk0 : k0 ∈ permKeys p := h k0 (by simp)
    obtain ⟨pv0, hpv0⟩ :=
      Option.isSome_iff_exists.mp ((lookupPerm_isSome_iff p k0).mpr hk0)
    have hrest : ∀ k ∈ permKeys rest, k ∈ permKeys p := by
      intro k hk
      exact h k (by simp [hk])
    obtain ⟨mr, hmr, hkeys, hlook⟩ := ih hrest
    refine ⟨(k0, if v0 > pv0 then v0 else pv0) :: mr, ?_, ?_, ?_⟩
    · simp [combinePerms, hpv0, hmr]
    · simp [hkeys]
    · intro k
      by_cases hkk : k0 = k
      · subst hkk
        have hmax : (if v0 > pv0 then v0 else pv0) = max v0 pv0 := by
          split <;> omega
        simp [lookupPerm, hpv0, hmax]
      · simp [lookupPerm, hkk, hlook]

theorem combinePerms_fail (l p : Perms) (k : String)
    (hl : k ∈ permKeys l) (hp : k ∉ permKeys p) :
    combinePerms l p = none := by
  induction l with
  | nil => simp at hl
  | cons kv rest ih =>
    obtain ⟨k0, v0⟩ := kv
    rw [permKeys_cons] at hl
    rcases List.mem_cons.mp hl with h0 | h0
    · subst h0
      have hnone : lookupPerm p k = none := (lookupPerm_eq_none_iff p k).mpr hp
      simp [combinePerms, hnone]
    · have hrec := ih h0
      cases hlk : lookupPerm p k0 <;> simp [combinePerms, hrec, hlk]

theorem get_local_permissions_shape (si : List Staff) (u : Nat) (ks : List String)
    (h : ∀ s ∈ si, permKeys s.permissions = ks) :
    get_local_permissions si u = none ∨
      ∃ l, get_local_permissions si u = some l ∧ permKeys l = ks := by
  unfold get_local_permissions
  cases hf : get_staff_member si u with
  | none => exact Or.inl rfl
  | some s =>
    exact Or.inr ⟨s.permissions, rfl, h s (List.mem_of_find?_eq_some hf)⟩

theorem get_permissions_shape (u : Nat) (ks : List String) (hks : ks ≠ [])
    (t : PermTree) (hu : UniformKeys ks t) :
    ∃ r, get_permissions u t = some r ∧
      (r = none ∨ ∃ l, r = some l ∧ permKeys l = ks) := by
  induction t with
  | leaf si =>
    exact ⟨get_local_permissions si u, rfl, get_local_permissions_shape si u ks hu⟩
  | branch si parent ih =>
    obtain ⟨hsi, hparent⟩ := hu
    obtain ⟨pr, hpr, hprshape⟩ := ih hparent
    have hlocal := get_local_permissions_shape si u ks hsi
    rcases hprshape with hprn | ⟨p, hpeq, hpkeys⟩
    · subst hprn
      refine ⟨get_local_permissions si u, ?_, hlocal⟩
      rw [get_permissions_branch_eq u si parent none hpr]
      simp [permStep]
    · subst hpeq
      have hpne : p ≠ [] := fun h0 => hks (by rw [← hpkeys, h0, permKeys_nil])
      have hpt : permsTruthy (some p) = true := permsTruthy_some_of_ne_nil p hpne
      rcases hlocal with hln | ⟨l, hleq, hlkeys⟩
      · refine ⟨some p, ?_, Or.inr ⟨p, rfl, hpkeys⟩⟩
        rw [get_permissions_branch_eq u si parent (some p) hpr]
        simp [permStep, hpt, hln]
      · have hlne : l ≠ [] := fun h0 => hks (by rw [← hlkeys, h0, permKeys_nil])
        have hlt : permsTruthy (some l) = true := permsTruthy_some_of_ne_nil l hlne
        obtain ⟨m, hm, hmkeys, _⟩ :=
          combinePerms_spec l p (fun k hk => by rw [hpkeys, ← hlkeys]; exact hk)
        refine ⟨some m, ?_, Or.inr ⟨m, rfl, by rw [hmkeys, hlkeys]⟩⟩
        rw [get_permissions_branch_eq u si parent (some p) hpr]
        simp [permStep, hpt, hleq, hlt, hm]

/-- C1: for every user and node of the organizational tree (with the
uniform non-empty permission-flag schema the Staff models share),
`get_permissions` returns the recursive "max wins" merge of the node's
local staff permissions with the permissions of its parent: per key the
maximum of the two values, a whole dictionary returned unchanged when
only one of the two exists, and `None` when neither exists; a node with
no parent returns its local permissions. -/
theorem C1_get_permissions_max_wins (u : Nat) (ks : List String) (t : PermTree)
    (hks : ks ≠ []) (hu : UniformKeys ks t) :
    ∃ r, get_permissions u t = some r ∧
      (∀ si, t = .leaf si → r = get_local_permissions si u) ∧
      (∀ si parent, t = .branch si parent →
        ∃ pr, get_permissions u parent = some pr ∧
          (∀ k, olookup r k =
            maxMergeVal (olookup (get_local_permissions si u) k) (olookup pr k)) ∧
          (r = none ↔ get_local_permissions si u = none ∧ pr = none)) := by
  cases t with
  | leaf si =>
    refine ⟨get_local_permissions si u, rfl, ?_, ?_⟩
    · intro si0 h0
      cases h0
      rfl
    · intro si0 parent0 h0
      cases h0
  | branch si parent =>
    obtain ⟨hsi, hparent⟩ := hu
    obtain ⟨pr, hpr, hprshape⟩ := get_permissions_shape u ks hks parent hparent
    have hlocal := get_local_permissions_shape si u ks hsi
    have main : ∃ r, get_permissions u (.branch si parent) = some r ∧
        (∀ k, olookup r k =
          maxMergeVal (olookup (get_local_permissions si u) k) (olookup pr k)) ∧
        (r = none ↔ get_local_permissions si u = none ∧ pr = none) := by
      rcases hprshape with hprn | ⟨p, hpeq, hpkeys⟩
      · subst hprn
        refine ⟨get_local_permissions si u, ?_, fun k => ?_, by simp⟩
        · rw [get_permissions_branch_eq u si parent none hpr]
          simp [permStep]
        · cases hl : olookup (get_local_permissions si u) k <;>
            simp [maxMergeVal, hl, olookup]
      · subst hpeq
        have hpne : p ≠ [] := fun h0 => hks (by rw [← hpkeys, h0, permKeys_nil])
        have hpt : permsTruthy (some p) = true := permsTruthy_some_of_ne_nil p hpne
        rcases hlocal with hln | ⟨l, hleq, hlkeys⟩
        · refine ⟨some p, ?_, fun k => ?_, by simp [hln]⟩
          · rw [get_permissions_branch_eq u si parent (some p) hpr]
            simp [permStep, hpt, hln]
          · cases hpk : lookupPerm p k <;> simp [maxMergeVal, hln, olookup, hpk]
        · have hlne : l ≠ [] := fun h0 => hks (by rw [← hlkeys, h0, permKeys_nil])
          have hlt : permsTruthy (some l) = true := permsTruthy_some_of_ne_nil l hlne
          obtain ⟨m, hm, hmkeys, hmlook⟩ :=
            combinePerms_spec l p (fun k hk => by rw [hpkeys, ← hlkeys]; exact hk)
          refine ⟨some m, ?_, fun k => ?_, by simp [hleq]⟩
          · rw [get_permissions_branch_eq u si parent (some p) hpr]
            simp [permStep, hpt, hleq, hlt, hm]
          · simp only [hleq, olookup]
            rw [hmlook k]
            by_cases hk : k ∈ permKeys l
            · obtain ⟨v, hv⟩ := Option.isSome_iff_exists.mp
                ((lookupPerm_isSome_iff l k).mpr hk)
              obtain ⟨pv, hpv⟩ := Option.isSome_iff_exists.mp
                ((lookupPerm_isSome_iff p k).mpr (by rw [hpkeys, ← hlkeys]; exact hk))
              simp [hv, hpv, maxMergeVal]
            · have hv : lookupPerm l k = none := (lookupPerm_eq_none_iff l k).mpr hk
              have hpv : lookupPerm p k = none := (lookupPerm_eq_none_iff p k).mpr
                (by rw [hpkeys, ← hlkeys]; exact hk)
              simp [hv, hpv, maxMergeVal]
    obtain ⟨r, hr, hlook, hnone⟩ := main
    refine ⟨r, hr, ?_, ?_⟩
    · intro si0 h0
      cases h0
    · intro si0 parent0 h0
      cases h0
      exact ⟨pr, hpr, hlook, hnone⟩

/-- C1 witness: a two-level tree with the one-key schema `["may_award"]`,
evaluated for user 1. -/
theorem C1_get_permissions_max_wins_witness :
    (["may_award"] : List String) ≠ [] ∧
    UniformKeys ["may_award"]
      (.branch [⟨1, [("may_award", 0)]⟩] (.leaf [⟨1, [("may_award", 1)]⟩])) ∧
    ∃ r, get_permissions 1
        (.branch [⟨1, [("may_award", 0)]⟩] (.leaf [⟨1, [("may_award", 1)]⟩])) = some r ∧
      (∀ si, (PermTree.branch [⟨1, [("may_award", 0)]⟩]
          (.leaf [⟨1, [("may_award", 1)]⟩])) = .leaf si →
        r = get_local_permissions si 1) ∧
      (∀ si parent, (PermTree.branch [⟨1, [("may_award", 0)]⟩]
          (.leaf [⟨1, [("may_award", 1)]⟩])) = .branch si parent →
        ∃ pr, get_permissions 1 parent = some pr ∧
          (∀ k, olookup r k =
            maxMergeVal (olookup (get_local_permissions si 1) k) (olookup pr k)) ∧
          (r = none ↔ get_local_permissions si 1 = none ∧ pr = none)) :=
  ⟨by decide, by decide,
   C1_get_permissions_max_wins 1 ["may_award"]
     (.branch [⟨1, [("may_award", 0)]⟩] (.leaf [⟨1, [("may_award", 1)]⟩]))
     (by decide) (by decide)⟩

/-- C2: when both the local and the parent dictionaries are non-empty, the
merged dictionary is built over exactly the local key set: a local key
missing from the parent's result makes `get_permissions` fail with a
lookup error, and a key present only in the parent's result is dropped. -/
theorem C2_merge_domain (u : Nat) (si : List Staff) (parent : PermTree)
    (l p : Perms)
    (hpr : get_permissions u parent = some (some p)) (hpne : p ≠ [])
    (hl : get_local_permissions si u = some l) (hlne : l ≠ []) :
    ((∀ k ∈ permKeys l, k ∈ permKeys p) →
      ∃ m, get_permissions u (.branch si parent) = some (some m) ∧
        permKeys m = permKeys l ∧
        (∀ k, k ∉ permKeys l → lookupPerm m k = none)) ∧
    (∀ k, k ∈ permKeys l → k ∉ permKeys p →
      get_permissions u (.branch si parent) = none) := by
  have hpt : permsTruthy (some p) = true := permsTruthy_some_of_ne_nil p hpne
  have hlt : permsTruthy (some l) = true := permsTruthy_some_of_ne_nil l hlne
  constructor
  · intro hsub
    obtain ⟨m, hm, hmkeys, _⟩ := combinePerms_spec l p hsub
    refine ⟨m, ?_, hmkeys, fun k hk => ?_⟩
    · rw [get_permissions_branch_eq u si parent (some p) hpr]
      simp [permStep, hpt, hl, hlt, hm]
    · exact (lookupPerm_eq_none_iff m k).mpr (by rw [hmkeys]; exact hk)
  · intro k hkl hkp
    have hfail := combinePerms_fail l p k hkl hkp
    rw [get_permissions_branch_eq u si parent (some p) hpr]
    simp [permStep, hpt, hl, hlt, hfail]

/-- C2 witness: local dict over keys `a, b` against a parent result over
keys `a, c`. -/
theorem C2_merge_domain_witness :
    get_permissions 1 (.leaf [⟨1, [("a", 3), ("c", 4)]⟩]) =
      some (some [("a", 3), ("c", 4)]) ∧
    ([("a", 3), ("c", 4)] : Perms) ≠ [] ∧
    get_local_permissions [⟨1, [("a", 1), ("b", 2)]⟩] 1 = some [("a", 1), ("b", 2)] ∧
    ([("a", 1), ("b", 2)] : Perms) ≠ [] ∧
    (((∀ k ∈ permKeys [("a", 1), ("b", 2)], k ∈ permKeys [("a", 3), ("c", 4)]) →
      ∃ m, get_permissions 1
          (.branch [⟨1, [("a", 1), ("b", 2)]⟩] (.leaf [⟨1, [("a", 3), ("c", 4)]⟩])) =
            some (some m) ∧
        permKeys m = permKeys [("a", 1), ("b", 2)] ∧
        (∀ k, k ∉ permKeys [("a", 1), ("b", 2)] → lookupPerm m k = none)) ∧
    (∀ k, k ∈ permKeys [("a", 1), ("b", 2)] → k ∉ permKeys [("a", 3), ("c", 4)] →
      get_permissions 1
        (.branch [⟨1, [("a", 1), ("b", 2)]⟩] (.leaf [⟨1, [("a", 3), ("c", 4)]⟩])) = none)) :=
  ⟨rfl, by decide, rfl, by decide,
   C2_merge_domain 1 [⟨1, [("a", 1), ("b", 2)]⟩] (.leaf [⟨1, [("a", 3), ("c", 4)]⟩])
     [("a", 1), ("b", 2)] [("a", 3), ("c", 4)] rfl (by decide) rfl (by decide)⟩

end BadgrStaff

namespace BadgrUser

/-- A row of the `account_emailaddress` table as seen through
`CachedEmailAddress` (allauth's `EmailAddress` fields used by the code). -/
structure EmailRec where
  id : Nat
  email : String
  userId : Nat
  verified : Bool
  primary : Bool
deriving Repr, DecidableEq

/-- A row of the `EmailAddressVariant` table: an alternate-case email and
its `canonical_email` foreign key. -/
structure VariantRec where
  email : String
  canonicalId : Nat
deriving Repr, DecidableEq

/-- The database state the email code touches: the email table, the
variant table, the confirmation mails sent so far, and the next free
primary key. -/
structure DbState where
  emails : List EmailRec
  variants : List VariantRec
  sentConfirmations : List String
  nextId : Nat
deriving Repr, DecidableEq

/-- Embeds `filter(email=e).first()` ‒ the first row with this exact email. -/
def findByEmail (recs : List EmailRec) (e : String) : Option EmailRec :=
  recs.find? (fun r => r.email == e)

/-- Row lookup by primary key. -/
def findById (recs : List EmailRec) (i : Nat) : Option EmailRec :=
  recs.find? (fun r => r.id == i)

/-- Writing a row back: every row with the instance's primary key is
replaced by the instance. -/
def updateById (recs : List EmailRec) (r : EmailRec) : List EmailRec :=
  recs.map (fun x => if x.id == r.id then r else x)

/-- The variant-creation hook at the end of `CachedEmailAddress.save`:
when the address has no variants yet and its email is not already
lowercase, `add_variant(self.email.lower())` stores the lowercase
variant. -/
def variantHook (st : DbState) (r : EmailRec) : DbState :=
  if !(st.variants.any (fun v => v.canonicalId == r.id)) && r.email != r.email.toLower
  then { st with variants := st.variants ++ [⟨r.email.toLower, r.id⟩] }
  else st

/-- Embeds `CachedEmailAddress.save` on an existing row: write the row, then run
the variant hook. -/
def save_email (st : DbState) (r : EmailRec) : DbState :=
  variantHook { st with emails := updateById st.emails r } r

/-- The create half of `CachedEmailAddress.cached.get_or_create`: a fresh
row with the given email, owner and primary flag, `verified` defaulting to
false; creation goes through `CachedEmailAddress.save`, so the variant
hook runs too. -/
def create_email (st : DbState) (email : String) (userId : Nat) (primary : Bool) :
    DbState × EmailRec :=
  let r : EmailRec := ⟨st.nextId, email, userId, false, primary⟩
  (variantHook { st with emails := st.emails ++ [r], nextId := st.nextId + 1 } r, r)

/-- Embeds `emailaddress.send_confirmation()`: a confirmation mail to this
address is recorded. -/
def send_confirmation (st : DbState) (email : String) : DbState :=
  { st with sentConfirmations := st.sentConfirmations ++ [email] }

/-- Embeds `CachedEmailAddress.delete`: the row disappears and its variants
cascade away. -/
def delete_email (st : DbState) (id : Nat) : DbState :=
  { st with emails := st.emails.filter (fun r => r.id != id),
            variants := st.variants.filter (fun v => v.canonicalId != id) }

/-- Modelled from the spec: allauth's `EmailAddress.objects.get_primary`
(called by `CachedEmailAddress.set_as_primary` but not part of this
repository) returns the user's address currently marked primary, if
any. -/
def get_primary (recs : List EmailRec) (userId : Nat) : Option EmailRec :=
  recs.find? (fun r => r.userId == userId && r.primary)

/-- Embeds `CachedEmailAddress.set_as_primary`: fetch the old primary; when one
exists and `conditional` holds return `False` unchanged, otherwise demote
it; then the parent class promotes `self` (sets `primary` and saves) and
returns `True`. The parent promotion is modelled from the spec, which says
the previously primary address is demoted before the new one is
promoted. -/
def set_as_primary (st : DbState) (self : EmailRec) (conditional : Bool) :
    DbState × Bool :=
  match get_primary st.emails self.userId with
  | some oldPrimary =>
    if conditional then (st, false)
    else
      let st1 := save_email st { oldPrimary with primary := false }
      (save_email st1 { self with primary := true }, true)
  | none => (save_email st { self with primary := true }, true)

/-- One entry of the list handed to the `email_items` setter
(`BadgeUserEmailSerializerV2` data: an email and its primary flag,
`primary` defaulting to false when absent). -/
structure EmailData where
  email : String
  primary : Bool
deriving Repr, DecidableEq

/-- The body of the add-or-update loop of the `email_items` setter for a
single entry: get-or-create by email; a created address gets a
confirmation mail; an address owned by this user gets its primary flag
written; an unverified address of another user is handed over to this user
and re-confirmed; a verified address of another user raises
`ValidationError`. -/
def process_email_data (userId : Nat) (d : EmailData) (st : DbState) :
    Except String DbState :=
  match findByEmail st.emails d.email with
  | none =>
    let created := create_email st d.email userId d.primary
    .ok (send_confirmation created.1 created.2.email)
  | some r =>
    if r.userId == userId then
      .ok (save_email st { r with primary := d.primary })
    else if !r.verified then
      .ok (send_confirmation
            (save_email st { r with userId := userId, primary := d.primary })
            d.email)
    else
      .error ("Email '" ++ d.email ++ "' may already be in use")

/-- The add-or-update loop over the whole submitted list; the first
`ValidationError` aborts it. -/
def process_emails (userId : Nat) : List EmailData → DbState → Except String DbState
  | [], st => .ok st
  | d :: rest, st =>
    match process_email_data userId d st with
    | .error e => .error e
    | .ok st1 => process_emails userId rest st1

/-- The remove-old-items loop: every address of this user whose email is
not among the submitted emails is deleted. -/
def remove_old (userId : Nat) (newEmails : List String) (st : DbState) : DbState :=
  (st.emails.filter (fun r => r.userId == userId && !newEmails.contains r.email)).foldl
    (fun s r => delete_email s r.id) st

/-- The `email_items` setter: reject an empty list, reject a list without
exactly one primary entry, then run the add-or-update loop and the
removal loop inside `transaction.atomic()` — on a `ValidationError` the
transaction rolls back and the original state survives unchanged. -/
def email_items_setter (userId : Nat) (value : List EmailData) (st : DbState) :
    DbState × Option String :=
  if value.length < 1 then (st, some "Must have at least 1 email")
  else if value.countP (·.primary) != 1 then (st, some "Must have exactly 1 primary email")
  else
    match process_emails userId value st with
    | .error e => (st, some e)
    | .ok st1 => (remove_old userId (value.map (·.email)) st1, none)

/-- Embeds `BadgeUser.cached_emails`: the rows owned by this user. -/
def cached_emails (st : DbState) (userId : Nat) : List EmailRec :=
  st.emails.filter (fun r => r.userId == userId)

/-- Embeds `BadgeUser.primary_email`: the email of the first cached address
marked primary, else the `email` column of the user row itself. -/
def primary_email (st : DbState) (userId : Nat) (userEmailField : String) : String :=
  match (cached_emails st userId).filter (·.primary) with
  | p :: _ => p.email
  | [] => userEmailField

/-- The number of this user's rows marked primary. -/
def primCount (st : DbState) (userId : Nat) : Nat :=
  (cached_emails st userId).countP (·.primary)

/-- Database well-formedness: primary keys are unique and below the next
free key. -/
abbrev DbWf (st : DbState) : Prop :=
  (st.emails.map (·.id)).Nodup ∧ ∀ r ∈ st.emails, r.id < st.nextId

/-- An `EmailAddressVariant` instance about to be saved: its email and its
`canonical_email` foreign key, unset when not yet resolved. -/
structure VariantInput where
  email : String
  canonicalId : Option Nat
deriving Repr, DecidableEq

/-- The canonical address `is_valid` works with: the set foreign key, or
else `CachedEmailAddress.cached.get(email=self.email)`; no canonical at
all fails with "Canonical Email Address not found". -/
def resolve_canonical (st : DbState) (v : VariantInput) : Except String EmailRec :=
  match v.canonicalId with
  | some cid =>
    match findById st.emails cid with
    | some r => .ok r
    | none => .error "Canonical Email Address not found"
  | none =>
    match findByEmail st.emails v.email with
    | some r => .ok r
    | none => .error "Canonical Email Address not found"

/-- Embeds `EmailAddressVariant.is_valid(raise_exception=True)`: resolve the
canonical address, then require the lowercased emails to agree. -/
def variant_is_valid (st : DbState) (v : VariantInput) : Except String EmailRec :=
  match resolve_canonical st v with
  | .error e => .error e
  | .ok canonical =>
    if !(canonical.email.toLower == v.email.toLower) then
      .error "New EmailAddressVariant does not match stored email address."
    else .ok canonical

/-- Embeds `EmailAddressVariant.save`: validate (raising), store the variant row,
then save the canonical address (whose variant hook now finds an existing
variant). -/
def variant_save (st : DbState) (v : VariantInput) : Except String DbState :=
  match variant_is_valid st v with
  | .error e => .error e
  | .ok canonical =>
    let st1 := { st with variants := st.variants ++ [⟨v.email, canonical.id⟩] }
    .ok (save_email st1 canonical)

/-- Embeds `EmailAddressVariant.verified`: read through to the canonical row's
`verified` flag; the variant row stores no verification state of its
own. -/
def variant_verified (st : DbState) (v : VariantRec) : Option Bool :=
  (findById st.emails v.canonicalId).map (·.verified)

/-- A `TermsAgreement` row for one user: the accepted version and the
`valid` flag. -/
structure TermsAgreementRec where
  terms_version : Nat
  valid : Bool
deriving Repr, DecidableEq

/-- Embeds `cached_agreed_terms_version`: of the user's agreements,
`filter(valid=True).order_by('-terms_version')[0]`, i.e. the head of the
valid ones sorted by descending version; the `IndexError` of an empty
result becomes `None`. -/
def cached_agreed_terms_version (agreements : List TermsAgreementRec) :
    Option TermsAgreementRec :=
  ((agreements.filter (·.valid)).mergeSort
    (fun a b => b.terms_version ≤ a.terms_version)).head?

/-- The `agreed_terms_version` property: the cached record's version, or 0
when there is none. -/
def agreed_terms_version (agreements : List TermsAgreementRec) : Nat :=
  match cached_agreed_terms_version agreements with
  | none => 0
  | some v => v.terms_version

/-- A `GroupEntity` row: primary key and optional rank. -/
structure GroupEntityRec where
  id : Nat
  rank : Option Nat
deriving Repr, DecidableEq

/-- The `check_rank_uniqueness` pre-save signal: with a non-None rank,
`filter(rank=instance.rank).first()` existing and different from the
instance itself raises `ValidationError`. -/
def check_rank_uniqueness (table : List GroupEntityRec) (inst : GroupEntityRec) :
    Option String :=
  match inst.rank with
  | none => none
  | some r =>
    match (table.filter (fun g => g.rank == some r)).head? with
    | some other =>
      if other.id != inst.id then some "Group rank already ascribed, choose another"
      else none
    | none => none

/-- Saving a `GroupEntity`: the pre-save signal runs first; on success the
row is written (updated when its key exists, inserted otherwise). -/
def group_entity_save (table : List GroupEntityRec) (g : GroupEntityRec) :
    Except String (List GroupEntityRec) :=
  match check_rank_uniqueness table g with
  | some e => .error e
  | none =>
    if table.any (fun x => x.id == g.id) then
      .ok (table.map (fun x => if x.id == g.id then g else x))
    else .ok (table ++ [g])

/-- No two stored rows share a non-None rank. -/
abbrev RankUnique (table : List GroupEntityRec) : Prop :=
  ∀ g1 ∈ table, ∀ g2 ∈ table, g1.rank ≠ none → g1.rank = g2.rank → g1.id = g2.id

end BadgrUser

namespace SurfConext

/-- An HTTP response from the identity provider: status code and the JSON
body's string fields. -/
structure HttpResponse where
  status_code : Nat
  fields : List (String × String)
deriving Repr, DecidableEq

/-- Embeds `data.get(key, None)` / `key in data` on a decoded JSON body. -/
def jsonGet (fields : List (String × String)) (k : String) : Option String :=
  (fields.find? (fun p => p.1 == k)).map (·.2)

/-- What the callback view sees: the `state` request parameter (already
split on `-`, `none` when the parameter is missing), the `code`
parameter, the token endpoint's response, the userinfo endpoint's
response, and whether the `BadgrApp` row named by the state exists. -/
structure CallbackEnv where
  stateFields : Option (List String)
  code : Option String
  tokenResponse : HttpResponse
  userinfoResponse : HttpResponse
  badgrAppExists : Bool
deriving Repr, DecidableEq

/-- The externally visible outcome of the callback view. -/
inductive CallbackResult where
  | authError (msg : String)
  | completed
deriving Repr, DecidableEq

/-- The `callback` view of the SURFconext provider, step by step: unpack
the state (a crash, `none`, when it is missing or not three fields); bail
out with `render_authentication_error` when the `code` parameter is
missing, when the token endpoint does not answer 200, when its body has no
`access_token`, when the userinfo endpoint does not answer 200, or when
the user data lacks `email` or `sub`; otherwise complete the social login
(which first looks up the `BadgrApp` row, crashing when it does not
exist). -/
def callback (env : CallbackEnv) : Option CallbackResult :=
  match env.stateFields with
  | none => none
  | some st =>
    if st.length != 3 then none
    else match env.code with
    | none => some (.authError "Server error: No userToken found in callback")
    | some _ =>
      if env.tokenResponse.status_code != 200 then
        some (.authError "Server error: Token endpoint error, try alternative login methods")
      else match jsonGet env.tokenResponse.fields "access_token" with
      | none => some (.authError "Server error: No access token, try alternative login methods.")
      | some _ =>
        if env.userinfoResponse.status_code != 200 then
          some (.authError "Server error: User info endpoint error. Try alternative login methods")
        else if (jsonGet env.userinfoResponse.fields "email").isNone ||
                (jsonGet env.userinfoResponse.fields "sub").isNone then
          some (.authError "Sorry, your account has no email attached from SurfConext, try another login method.")
        else if env.badgrAppExists then some .completed
        else none

end SurfConext

namespace BadgrUser

theorem mem_variants_save_email (s : DbState) (r : EmailRec) (x : VariantRec)
    (hx : x ∈ s.variants) : x ∈ (save_email s r).variants := by
  unfold save_email variantHook
  split <;> simp [hx]

/-- C7: a variant's `verified` reads through to the canonical address's
current `verified` flag; the variant row stores no verification state of
its own. -/
theorem C7_variant_verified (st : DbState) (v : VariantRec) (r : EmailRec)
    (h : findById st.emails v.canonicalId = some r) :
    variant_verified st v = some r.verified := by
  unfold variant_verified
  rw [h]
  rfl

/-- C7 witness: a variant of the single stored address. -/
theorem C7_variant_verified_witness :
    variant_verified ⟨[⟨1, "A@x", 7, true, true⟩], [⟨"a@x", 1⟩], [], 2⟩ ⟨"a@x", 1⟩ =
      some true :=
  C7_variant_verified ⟨[⟨1, "A@x", 7, true, true⟩], [⟨"a@x", 1⟩], [], 2⟩ ⟨"a@x", 1⟩
    ⟨1, "A@x", 7, true, true⟩ rfl

/-- C8: saving an `EmailAddressVariant` succeeds only for an
alternate-case form of its canonical address: an unresolvable canonical or
a lowercase mismatch raises `ValidationError` and stores nothing, a match
stores the variant row. -/
theorem C8_variant_save (st : DbState) (v : VariantInput) :
    (v.canonicalId = none → findByEmail st.emails v.email = none →
      variant_save st v = .error "Canonical Email Address not found") ∧
    (∀ canonical, resolve_canonical st v = .ok canonical →
      canonical.email.toLower ≠ v.email.toLower →
      variant_save st v =
        .error "New EmailAddressVariant does not match stored email address.") ∧
    (∀ canonical, resolve_canonical st v = .ok canonical →
      canonical.email.toLower = v.email.toLower →
      ∃ st2, variant_save st v = .ok st2 ∧
        (⟨v.email, canonical.id⟩ : VariantRec) ∈ st2.variants) := by
  refine ⟨?_, ?_, ?_⟩
  · intro h1 h2
    simp [variant_save, variant_is_valid, resolve_canonical, h1, h2]
  · intro c hres hne
    simp [variant_save, variant_is_valid, hres, hne]
  · intro c hres heq
    refine ⟨save_email { st with variants := st.variants ++ [⟨v.email, c.id⟩] } c, ?_, ?_⟩
    · simp [variant_save, variant_is_valid, hres, heq]
    · exact mem_variants_save_email _ c _ (by simp)

/-- C8 witness: storing the variant `a@x` of the canonical address `a@x`
resolved through the email column. -/
theorem C8_variant_save_witness :
    resolve_canonical ⟨[⟨1, "a@x", 7, true, true⟩], [], [], 2⟩ ⟨"a@x", none⟩ =
      .ok ⟨1, "a@x", 7, true, true⟩ ∧
    (⟨1, "a@x", 7, true, true⟩ : EmailRec).email.toLower = ("a@x" : String).toLower ∧
    ∃ st2, variant_save ⟨[⟨1, "a@x", 7, true, true⟩], [], [], 2⟩ ⟨"a@x", none⟩ = .ok st2 ∧
      (⟨"a@x", 1⟩ : VariantRec) ∈ st2.variants :=
  ⟨rfl, rfl,
   (C8_variant_save ⟨[⟨1, "a@x", 7, true, true⟩], [], [], 2⟩ ⟨"a@x", none⟩).2.2
     ⟨1, "a@x", 7, true, true⟩ rfl rfl⟩

/-- C10: `primary_email` is total: the first cached address marked primary
when one exists, else the user row's own `email` column. -/
theorem C10_primary_email_total (st : DbState) (userId : Nat) (ue : String) :
    ((cached_emails st userId).filter (·.primary) = [] →
      primary_email st userId ue = ue) ∧
    (∀ p rest, (cached_emails st userId).filter (·.primary) = p :: rest →
      primary_email st userId ue = p.email) := by
  constructor
  · intro h
    unfold primary_email
    rw [h]
  · intro p rest h
    unfold primary_email
    rw [h]

/-- C10 witness: a user with a primary address and a user with none. -/
theorem C10_primary_email_total_witness :
    primary_email ⟨[⟨1, "a@x", 7, true, false⟩, ⟨2, "b@x", 7, true, true⟩], [], [], 3⟩
      7 "fallback" = "b@x" ∧
    primary_email ⟨[⟨1, "a@x", 7, true, false⟩], [], [], 2⟩ 7 "fallback" = "fallback" :=
  ⟨(C10_primary_email_total
      ⟨[⟨1, "a@x", 7, true, false⟩, ⟨2, "b@x", 7, true, true⟩], [], [], 3⟩ 7 "fallback").2
      ⟨2, "b@x", 7, true, true⟩ [] rfl,
   (C10_primary_email_total ⟨[⟨1, "a@x", 7, true, false⟩], [], [], 2⟩ 7 "fallback").1 rfl⟩

/-- C5: `agreed_terms_version` is the highest `terms_version` among the
user's valid agreement records, and 0 when there is none. -/
theorem C5_agreed_terms_version (agreements : List TermsAgreementRec) :
    (agreements.filter (·.valid) = [] → agreed_terms_version agreements = 0) ∧
    (agreements.filter (·.valid) ≠ [] →
      (∃ a ∈ agreements.filter (·.valid),
        a.terms_version = agreed_terms_version agreements) ∧
      ∀ a ∈ agreements.filter (·.valid),
        a.terms_version ≤ agreed_terms_version agreements) := by
  have hperm := List.mergeSort_perm (agreements.filter (·.valid))
    (fun a b => b.terms_version ≤ a.terms_version)
  cases hs : (agreements.filter (·.valid)).mergeSort
      (fun a b => b.terms_version ≤ a.terms_version) with
  | nil =>
    rw [hs] at hperm
    have hnil : agreements.filter (·.valid) = [] := hperm.symm.eq_nil
    constructor
    · intro _
      unfold agreed_terms_version cached_agreed_terms_version
      rw [hs]
      rfl
    · intro hne
      exact absurd hnil hne
  | cons a tail =>
    rw [hs] at hperm
    have hval : agreed_terms_version agreements = a.terms_version := by
      unfold agreed_terms_version cached_agreed_terms_version
      rw [hs]
      rfl
    have hsorted := @List.sorted_mergeSort TermsAgreementRec
      (fun a b => decide (b.terms_version ≤ a.terms_version))
      (fun x y z hxy hyz => by
        simp only [decide_eq_true_eq] at hxy hyz ⊢
        omega)
      (fun x y => by
        simp only [Bool.or_eq_true, decide_eq_true_eq]
        omega)
      (agreements.filter (·.valid))
    rw [hs] at hsorted
    obtain ⟨hhead, _⟩ := List.pairwise_cons.mp hsorted
    constructor
    · intro h0
      rw [h0] at hperm
      exact absurd hperm.eq_nil (by simp)
    · intro _
      refine ⟨⟨a, hperm.mem_iff.mp (by simp), hval.symm⟩, ?_⟩
      intro x hx
      rw [hval]
      rcases List.mem_cons.mp (hperm.symm.mem_iff.mp hx) with rfl | hx2
      · exact le_refl _
      · have := hhead x hx2
        simp only [decide_eq_true_eq] at this
        exact this


theorem eq_of_mem_of_id_eq (l : List EmailRec) (hnd : (l.map (·.id)).Nodup)
    {x y : EmailRec} (hx : x ∈ l) (hy : y ∈ l) (h : x.id = y.id) : x = y :=
  List.inj_on_of_nodup_map hnd hx hy h

theorem findByEmail_mem {recs : List EmailRec} {e : String} {r : EmailRec}
    (h : findByEmail recs e = some r) : r ∈ recs ∧ r.email = e :=
  ⟨List.mem_of_find?_eq_some h, by simpa using List.find?_some h⟩

theorem get_primary_mem {recs : List EmailRec} {u : Nat} {r : EmailRec}
    (h : get_primary recs u = some r) :
    r ∈ recs ∧ r.userId = u ∧ r.primary = true := by
  have h1 := List.mem_of_find?_eq_some h
  have h2 := List.find?_some h
  simp at h2
  exact ⟨h1, h2.1, h2.2⟩

theorem get_primary_none {recs : List EmailRec} {u : Nat}
    (h : get_primary recs u = none) :
    ∀ r ∈ recs, r.userId = u → r.primary = false := by
  intro r hr hu
  have := List.find?_eq_none.mp h r hr
  simp [hu] at this
  exact this

theorem updateById_map_id (recs : List EmailRec) (r : EmailRec) :
    (updateById recs r).map (·.id) = recs.map (·.id) := by
  unfold updateById
  rw [List.map_map]
  apply List.map_congr_left
  intro x _
  by_cases h : x.id = r.id <;> simp [h]

theorem mem_updateById_of_ne (recs : List EmailRec) (r x : EmailRec)
    (hx : x ∈ recs) (hne : x.id ≠ r.id) : x ∈ updateById recs r := by
  unfold updateById
  have h0 := List.mem_map_of_mem (fun y => if y.id == r.id then r else y) hx
  simpa [hne] using h0

theorem findById_updateById_self (recs : List EmailRec) (r x : EmailRec)
    (hx : x ∈ recs) (hid : x.id = r.id) :
    findById (updateById recs r) r.id = some r := by
  induction recs with
  | nil => cases hx
  | cons a rest ih =>
    simp only [updateById, List.map_cons]
    by_cases h : a.id = r.id
    · rw [if_pos (by simp [h])]
      unfold findById
      rw [List.find?_cons_of_pos _ (by simp)]
    · rw [if_neg (by simp [h])]
      unfold findById
      rw [List.find?_cons_of_neg _ (by simp [h])]
      rcases List.mem_cons.mp hx with rfl | hx2
      · exact absurd hid h
      · exact ih hx2

theorem findById_updateById_ne (recs : List EmailRec) (r : EmailRec) (j : Nat)
    (hj : j ≠ r.id) : findById (updateById recs r) j = findById recs j := by
  induction recs with
  | nil => rfl
  | cons a rest ih =>
    simp only [updateById, List.map_cons]
    by_cases h : a.id = r.id
    · rw [if_pos (by simp [h])]
      unfold findById
      rw [List.find?_cons_of_neg _ (by simp [Ne.symm hj]),
          List.find?_cons_of_neg _ (by simp [h, Ne.symm hj])]
      exact ih
    · rw [if_neg (by simp [h])]
      unfold findById
      by_cases hp : a.id = j
      · rw [List.find?_cons_of_pos _ (by simp [hp]),
            List.find?_cons_of_pos _ (by simp [hp])]
      · rw [List.find?_cons_of_neg _ (by simp [hp]),
            List.find?_cons_of_neg _ (by simp [hp])]
        exact ih

theorem findByEmail_updateById_ne (recs : List EmailRec) (r : EmailRec) (e : String)
    (he : r.email ≠ e) (hcond : ∀ x ∈ recs, x.id = r.id → x.email = r.email) :
    findByEmail (updateById recs r) e = findByEmail recs e := by
  induction recs with
  | nil => rfl
  | cons a rest ih =>
    have hcr : ∀ x ∈ rest, x.id = r.id → x.email = r.email :=
      fun x hx => hcond x (List.mem_cons_of_mem a hx)
    simp only [updateById, List.map_cons]
    by_cases h : a.id = r.id
    · have hae : a.email = r.email := hcond a (List.mem_cons_self a rest) h
      rw [if_pos (by simp [h])]
      unfold findByEmail
      rw [List.find?_cons_of_neg _ (by simp [he]),
          List.find?_cons_of_neg _ (by simp [hae, he])]
      exact ih hcr
    · rw [if_neg (by simp [h])]
      unfold findByEmail
      by_cases hp : a.email = e
      · rw [List.find?_cons_of_pos _ (by simp [hp]),
            List.find?_cons_of_pos _ (by simp [hp])]
      · rw [List.find?_cons_of_neg _ (by simp [hp]),
            List.find?_cons_of_neg _ (by simp [hp])]
        exact ih hcr

theorem findByEmail_append_ne (recs : List EmailRec) (x : EmailRec) (e : String)
    (hx : x.email ≠ e) : findByEmail (recs ++ [x]) e = findByEmail recs e := by
  unfold findByEmail
  rw [List.find?_append]
  have h0 : List.find? (fun r => r.email == e) [x] = none := by simp [hx]
  rw [h0, Option.or_none]

@[simp]
theorem variantHook_emails (st : DbState) (r : EmailRec) :
    (variantHook st r).emails = st.emails := by
  unfold variantHook
  split <;> rfl

@[simp]
theorem variantHook_nextId (st : DbState) (r : EmailRec) :
    (variantHook st r).nextId = st.nextId := by
  unfold variantHook
  split <;> rfl

@[simp]
theorem variantHook_sent (st : DbState) (r : EmailRec) :
    (variantHook st r).sentConfirmations = st.sentConfirmations := by
  unfold variantHook
  split <;> rfl

@[simp]
theorem save_email_emails (st : DbState) (r : EmailRec) :
    (save_email st r).emails = updateById st.emails r := by
  unfold save_email
  simp

@[simp]
theorem save_email_nextId (st : DbState) (r : EmailRec) :
    (save_email st r).nextId = st.nextId := by
  unfold save_email
  simp

@[simp]
theorem save_email_sent (st : DbState) (r : EmailRec) :
    (save_email st r).sentConfirmations = st.sentConfirmations := by
  unfold save_email
  simp

@[simp]
theorem create_email_emails (st : DbState) (e : String) (u : Nat) (p : Bool) :
    (create_email st e u p).1.emails = st.emails ++ [⟨st.nextId, e, u, false, p⟩] := by
  unfold create_email
  simp

@[simp]
theorem create_email_nextId (st : DbState) (e : String) (u : Nat) (p : Bool) :
    (create_email st e u p).1.nextId = st.nextId + 1 := by
  unfold create_email
  simp

@[simp]
theorem create_email_sent (st : DbState) (e : String) (u : Nat) (p : Bool) :
    (create_email st e u p).1.sentConfirmations = st.sentConfirmations := by
  unfold create_email
  simp

@[simp]
theorem create_email_rec (st : DbState) (e : String) (u : Nat) (p : Bool) :
    (create_email st e u p).2 = ⟨st.nextId, e, u, false, p⟩ := rfl

@[simp]
theorem send_confirmation_emails (st : DbState) (e : String) :
    (send_confirmation st e).emails = st.emails := rfl

@[simp]
theorem send_confirmation_nextId (st : DbState) (e : String) :
    (send_confirmation st e).nextId = st.nextId := rfl

@[simp]
theorem send_confirmation_sent (st : DbState) (e : String) :
    (send_confirmation st e).sentConfirmations = st.sentConfirmations ++ [e] := rfl

theorem DbWf_save_email (st : DbState) (r : EmailRec) (h : DbWf st) :
    DbWf (save_email st r) := by
  obtain ⟨h1, h2⟩ := h
  constructor
  · rw [save_email_emails, updateById_map_id]
    exact h1
  · intro x hx
    rw [save_email_emails] at hx
    have hx2 : x.id ∈ (updateById st.emails r).map (·.id) :=
      List.mem_map_of_mem _ hx
    rw [updateById_map_id] at hx2
    obtain ⟨y, hy, hyx⟩ := List.mem_map.mp hx2
    rw [save_email_nextId, ← hyx]
    exact h2 y hy

theorem DbWf_send_confirmation (st : DbState) (e : String) (h : DbWf st) :
    DbWf (send_confirmation st e) := by
  obtain ⟨h1, h2⟩ := h
  exact ⟨h1, h2⟩

theorem DbWf_create_email (st : DbState) (e : String) (u : Nat) (p : Bool)
    (h : DbWf st) : DbWf (create_email st e u p).1 := by
  obtain ⟨h1, h2⟩ := h
  constructor
  · rw [create_email_emails, List.map_append, List.nodup_append]
    refine ⟨h1, by simp, ?_⟩
    intro i hi hi2
    simp at hi2
    obtain ⟨y, hy, hyx⟩ := List.mem_map.mp hi
    have := h2 y hy
    omega
  · intro x hx
    rw [create_email_emails] at hx
    rw [create_email_nextId]
    rcases List.mem_append.mp hx with hx2 | hx2
    · have := h2 x hx2
      omega
    · have hxeq := List.mem_singleton.mp hx2
      subst hxeq
      exact Nat.lt_succ_self st.nextId

theorem DbWf_process_email_data (u : Nat) (d : EmailData) (st st2 : DbState)
    (hwf : DbWf st) (h : process_email_data u d st = .ok st2) : DbWf st2 := by
  unfold process_email_data at h
  cases hfind : findByEmail st.emails d.email with
  | none =>
    simp only [hfind] at h
    cases h
    exact DbWf_send_confirmation _ _ (DbWf_create_email _ _ _ _ hwf)
  | some r =>
    simp only [hfind] at h
    by_cases hu : (r.userId == u) = true
    · rw [if_pos hu] at h
      cases h
      exact DbWf_save_email _ _ hwf
    · rw [if_neg hu] at h
      by_cases hv : (!r.verified) = true
      · rw [if_pos hv] at h
        cases h
        exact DbWf_send_confirmation _ _ (DbWf_save_email _ _ hwf)
      · rw [if_neg hv] at h
        cases h

theorem process_preserves_findByEmail (u : Nat) (d : EmailData) (st st2 : DbState)
    (e : String) (hne : d.email ≠ e) (hwf : DbWf st)
    (h : process_email_data u d st = .ok st2) :
    findByEmail st2.emails e = findByEmail st.emails e := by
  unfold process_email_data at h
  cases hfind : findByEmail st.emails d.email with
  | none =>
    simp only [hfind] at h
    cases h
    rw [send_confirmation_emails, create_email_emails]
    exact findByEmail_append_ne _ _ _ hne
  | some r =>
    simp only [hfind] at h
    obtain ⟨hrmem, hremail⟩ := findByEmail_mem hfind
    have hcond : ∀ (r2 : EmailRec), ∀ x ∈ st.emails, x.id = r2.id → r2.id = r.id →
        x.email = r.email := by
      intro r2 x hx hxid hr2id
      have : x = r := eq_of_mem_of_id_eq st.emails hwf.1 hx hrmem (hxid.trans hr2id)
      rw [this]
    by_cases hu : (r.userId == u) = true
    · rw [if_pos hu] at h
      cases h
      rw [save_email_emails]
      exact findByEmail_updateById_ne _ _ _ (by simpa [hremail] using hne)
        (fun x hx hxid => hcond _ x hx hxid rfl)
    · rw [if_neg hu] at h
      by_cases hv : (!r.verified) = true
      · rw [if_pos hv] at h
        cases h
        rw [send_confirmation_emails, save_email_emails]
        exact findByEmail_updateById_ne _ _ _ (by simpa [hremail] using hne)
          (fun x hx hxid => hcond _ x hx hxid rfl)
      · rw [if_neg hv] at h
        cases h

theorem process_emails_conflict (u : Nat) (e : String) :
    ∀ (value : List EmailData) (st : DbState), DbWf st →
    (∃ d ∈ value, d.email = e) →
    (∃ rr, findByEmail st.emails e = some rr ∧ rr.userId ≠ u ∧ rr.verified = true) →
    ∃ msg, process_emails u value st = .error msg := by
  intro value
  induction value with
  | nil =>
    intro st _ hd _
    obtain ⟨d, hd0, _⟩ := hd
    cases hd0
  | cons d rest ih =>
    intro st hwf hd hr
    obtain ⟨rr, hfr, hru, hrv⟩ := hr
    by_cases hde : d.email = e
    · refine ⟨"Email '" ++ e ++ "' may already be in use", ?_⟩
      unfold process_emails process_email_data
      simp only [hde, hfr]
      rw [if_neg (by simp [hru]), if_neg (by simp [hrv])]
    · unfold process_emails
      cases hp : process_email_data u d st with
      | error msg => exact ⟨msg, rfl⟩
      | ok st1 =>
        have hd1 : ∃ d2 ∈ rest, d2.email = e := by
          obtain ⟨d0, hd0, hd0e⟩ := hd
          rcases List.mem_cons.mp hd0 with rfl | hd02
          · exact absurd hd0e hde
          · exact ⟨d0, hd02, hd0e⟩
        have hfind1 : findByEmail st1.emails e = some rr := by
          rw [process_preserves_findByEmail u d st st1 e hde hwf hp]
          exact hfr
        exact ih st1 (DbWf_process_email_data u d st st1 hwf hp) hd1 ⟨rr, hfind1, hru, hrv⟩

theorem two_le_length_of_mem_ne {α : Type} {a b : α} {l : List α}
    (ha : a ∈ l) (hb : b ∈ l) (hne : a ≠ b) : 2 ≤ l.length := by
  cases l with
  | nil => cases ha
  | cons x xs =>
    cases xs with
    | nil =>
      have h1 := List.mem_singleton.mp ha
      have h2 := List.mem_singleton.mp hb
      exact absurd (h1.trans h2.symm) hne
    | cons y ys =>
      simp only [List.length_cons]
      omega

theorem two_le_countP_of_mem {α : Type} (p : α → Bool) (l : List α) (a b : α)
    (ha : a ∈ l) (hb : b ∈ l) (hne : a ≠ b)
    (hpa : p a = true) (hpb : p b = true) : 2 ≤ l.countP p := by
  rw [List.countP_eq_length_filter]
  exact two_le_length_of_mem_ne (List.mem_filter.mpr ⟨ha, hpa⟩)
    (List.mem_filter.mpr ⟨hb, hpb⟩) hne

theorem countP_eq_one_of_unique (l : List EmailRec) (self : EmailRec)
    (p : EmailRec → Bool) (hnd : l.Nodup) (hself : self ∈ l)
    (hp : ∀ x ∈ l, p x = true ↔ x = self) : l.countP p = 1 := by
  have h0 : l.countP p = l.count self := by
    rw [List.count_eq_countP]
    apply List.countP_congr
    intro x hx
    rw [hp x hx]
    simp
  rw [h0]
  exact List.count_eq_one_of_mem hnd hself

theorem primCount_eq_countP (st : DbState) (u : Nat) :
    primCount st u = st.emails.countP (fun r => r.userId == u && r.primary) := by
  unfold primCount cached_emails
  rw [List.countP_filter]
  apply List.countP_congr
  intro x _
  simp [Bool.and_comm]


/-- C3: the `email_items` setter rejects a submitted list without exactly
one primary entry; `set_as_primary` with `conditional=True` and an
existing primary returns `False` changing nothing, otherwise it demotes
the previously primary address and promotes the new one, and it keeps the
user's set of addresses at exactly one primary. -/
theorem C3_primary_email_invariant (st : DbState) (self : EmailRec)
    (hwf : DbWf st) (hself : self ∈ st.emails) :
    (∀ (u : Nat) (value : List EmailData) (st0 : DbState),
      value.countP (·.primary) ≠ 1 →
      ∃ msg, email_items_setter u value st0 = (st0, some msg)) ∧
    (∀ old, get_primary st.emails self.userId = some old →
      set_as_primary st self true = (st, false)) ∧
    (∀ old, get_primary st.emails self.userId = some old → old.id ≠ self.id →
      (set_as_primary st self false).2 = true ∧
      findById (set_as_primary st self false).1.emails old.id =
        some { old with primary := false } ∧
      findById (set_as_primary st self false).1.emails self.id =
        some { self with primary := true }) ∧
    (primCount st self.userId ≤ 1 →
      (set_as_primary st self false).2 = true ∧
      primCount (set_as_primary st self false).1 self.userId = 1) := by
  have hndid : (st.emails.map (·.id)).Nodup := hwf.1
  have hnd : st.emails.Nodup := List.Nodup.of_map _ hndid
  refine ⟨?_, ?_, ?_, ?_⟩
  · intro u value st0 hcp
    unfold email_items_setter
    by_cases hlen : value.length < 1
    · rw [if_pos hlen]
      exact ⟨_, rfl⟩
    · rw [if_neg hlen]
      rw [if_pos (show (value.countP (·.primary) != 1) = true by simp [hcp])]
      exact ⟨_, rfl⟩
  · intro old hgp
    unfold set_as_primary
    simp only [hgp]
    rfl
  · intro old hgp hne
    obtain ⟨holdmem, holduid, holdprim⟩ := get_primary_mem hgp
    have hemails : (set_as_primary st self false).1.emails =
        updateById (updateById st.emails { old with primary := false })
          { self with primary := true } := by
      unfold set_as_primary
      simp only [hgp]
      simp
    refine ⟨?_, ?_, ?_⟩
    · unfold set_as_primary
      simp only [hgp]
      rfl
    · rw [hemails]
      rw [findById_updateById_ne _ _ _
        (show old.id ≠ ({ self with primary := true } : EmailRec).id from hne)]
      exact findById_updateById_self st.emails _ old holdmem rfl
    · rw [hemails]
      have hmem1 : self ∈ updateById st.emails { old with primary := false } :=
        mem_updateById_of_ne _ _ _ hself
          (show self.id ≠ ({ old with primary := false } : EmailRec).id from Ne.symm hne)
      exact findById_updateById_self _ _ self hmem1 rfl
  · intro hle
    constructor
    · cases hgp : get_primary st.emails self.userId with
      | some old =>
        unfold set_as_primary
        simp only [hgp]
        rfl
      | none =>
        unfold set_as_primary
        simp only [hgp]
    · cases hgp : get_primary st.emails self.userId with
      | none =>
        have hemails : (set_as_primary st self false).1.emails =
            updateById st.emails { self with primary := true } := by
          unfold set_as_primary
          simp only [hgp]
          simp
        rw [primCount_eq_countP, hemails]
        unfold updateById
        rw [List.countP_map]
        apply countP_eq_one_of_unique st.emails self _ hnd hself
        intro x hx
        simp only [Function.comp]
        by_cases hid : x.id = self.id
        · have hxself : x = self := eq_of_mem_of_id_eq st.emails hndid hx hself hid
          subst hxself
          simp
        · have hfx : (if (x.id == ({ self with primary := true } : EmailRec).id) = true
              then ({ self with primary := true } : EmailRec) else x) = x := by
            simp [hid]
          rw [hfx]
          constructor
          · intro hq
            simp at hq
            have hxp := get_primary_none hgp x hx hq.1
            rw [hxp] at hq
            exact absurd hq.2 (by simp)
          · intro hxx
            exact absurd (by rw [hxx]) hid
      | some old =>
        obtain ⟨holdmem, holduid, holdprim⟩ := get_primary_mem hgp
        have hemails : (set_as_primary st self false).1.emails =
            updateById (updateById st.emails { old with primary := false })
              { self with primary := true } := by
          unfold set_as_primary
          simp only [hgp]
          simp
        rw [primCount_eq_countP, hemails]
        unfold updateById
        rw [List.map_map, List.countP_map]
        apply countP_eq_one_of_unique st.emails self _ hnd hself
        intro x hx
        simp only [Function.comp]
        by_cases hxs : x = self
        · subst hxs
          by_cases hso : x.id = old.id
          · have holdx : old = x :=
              eq_of_mem_of_id_eq st.emails hndid holdmem hx hso.symm
            subst holdx
            simp
          · simp [hso]
        · have hid : x.id ≠ self.id :=
            fun h => hxs (eq_of_mem_of_id_eq st.emails hndid hx hself h)
          by_cases hxo : x.id = old.id
          · have hxold : x = old := eq_of_mem_of_id_eq st.emails hndid hx holdmem hxo
            subst hxold
            simp [hid, hxs]
          · simp [hxo, hid, hxs]
            intro hqu
            cases hp : x.primary with
            | false => rfl
            | true =>
              have h2 : 2 ≤ st.emails.countP
                  (fun r => r.userId == self.userId && r.primary) :=
                two_le_countP_of_mem _ _ x old hx holdmem
                  (fun hh => hxo (by rw [hh])) (by simp [hqu, hp])
                  (by simp [holduid, holdprim])
              rw [← primCount_eq_countP] at h2
              omega

/-- C3 witness: user 7 with a primary and a non-primary address, promoting
the non-primary one. -/
theorem C3_primary_email_invariant_witness :
    (∀ (u : Nat) (value : List EmailData) (st0 : DbState),
      value.countP (·.primary) ≠ 1 →
      ∃ msg, email_items_setter u value st0 = (st0, some msg)) ∧
    (∀ old, get_primary [⟨1, "a@x", 7, true, true⟩, ⟨2, "b@x", 7, true, false⟩]
        (7 : Nat) = some old →
      set_as_primary ⟨[⟨1, "a@x", 7, true, true⟩, ⟨2, "b@x", 7, true, false⟩], [], [], 3⟩
        ⟨2, "b@x", 7, true, false⟩ true =
        (⟨[⟨1, "a@x", 7, true, true⟩, ⟨2, "b@x", 7, true, false⟩], [], [], 3⟩, false)) ∧
    (∀ old, get_primary [⟨1, "a@x", 7, true, true⟩, ⟨2, "b@x", 7, true, false⟩]
        (7 : Nat) = some old →
      old.id ≠ (2 : Nat) →
      (set_as_primary ⟨[⟨1, "a@x", 7, true, true⟩, ⟨2, "b@x", 7, true, false⟩], [], [], 3⟩
        ⟨2, "b@x", 7, true, false⟩ false).2 = true ∧
      findById (set_as_primary
          ⟨[⟨1, "a@x", 7, true, true⟩, ⟨2, "b@x", 7, true, false⟩], [], [], 3⟩
          ⟨2, "b@x", 7, true, false⟩ false).1.emails old.id =
        some { old with primary := false } ∧
      findById (set_as_primary
          ⟨[⟨1, "a@x", 7, true, true⟩, ⟨2, "b@x", 7, true, false⟩], [], [], 3⟩
          ⟨2, "b@x", 7, true, false⟩ false).1.emails (2 : Nat) =
        some ⟨2, "b@x", 7, true, true⟩) ∧
    (primCount ⟨[⟨1, "a@x", 7, true, true⟩, ⟨2, "b@x", 7, true, false⟩], [], [], 3⟩ 7 ≤ 1 →
      (set_as_primary ⟨[⟨1, "a@x", 7, true, true⟩, ⟨2, "b@x", 7, true, false⟩], [], [], 3⟩
        ⟨2, "b@x", 7, true, false⟩ false).2 = true ∧
      primCount (set_as_primary
          ⟨[⟨1, "a@x", 7, true, true⟩, ⟨2, "b@x", 7, true, false⟩], [], [], 3⟩
          ⟨2, "b@x", 7, true, false⟩ false).1 7 = 1) :=
  C3_primary_email_invariant
    ⟨[⟨1, "a@x", 7, true, true⟩, ⟨2, "b@x", 7, true, false⟩], [], [], 3⟩
    ⟨2, "b@x", 7, true, false⟩ (by constructor <;> decide) (by decide)

/-- C4: an existing address of another user is handed over to this user
when unverified (owner and primary flag reassigned, confirmation re-sent);
when verified the whole `email_items` update raises `ValidationError` and
the transaction leaves the original state untouched. -/
theorem C4_email_ownership (u : Nat) (st : DbState) (e : String) (prim : Bool)
    (r : EmailRec) (hwf : DbWf st) (hfind : findByEmail st.emails e = some r)
    (hother : r.userId ≠ u) :
    (r.verified = false →
      ∃ st2, process_email_data u ⟨e, prim⟩ st = .ok st2 ∧
        findById st2.emails r.id = some { r with userId := u, primary := prim } ∧
        st2.sentConfirmations = st.sentConfirmations ++ [e]) ∧
    (r.verified = true → ∀ value, (∃ d ∈ value, d.email = e) →
      ∃ msg, email_items_setter u value st = (st, some msg)) := by
  obtain ⟨hrmem, hremail⟩ := findByEmail_mem hfind
  constructor
  · intro hv
    refine ⟨send_confirmation
        (save_email st { r with userId := u, primary := prim }) e, ?_, ?_, ?_⟩
    · unfold process_email_data
      simp only [hfind]
      rw [if_neg (by simp [hother]), if_pos (by simp [hv])]
    · rw [send_confirmation_emails, save_email_emails]
      exact findById_updateById_self st.emails _ r hrmem rfl
    · rw [send_confirmation_sent, save_email_sent]
  · intro hv value hd
    obtain ⟨msg, hmsg⟩ :=
      process_emails_conflict u e value st hwf hd ⟨r, hfind, hother, hv⟩
    unfold email_items_setter
    by_cases hlen : value.length < 1
    · rw [if_pos hlen]
      exact ⟨_, rfl⟩
    · rw [if_neg hlen]
      by_cases hcp : (value.countP (·.primary) != 1) = true
      · rw [if_pos hcp]
        exact ⟨_, rfl⟩
      · rw [if_neg hcp]
        exact ⟨msg, by simp only [hmsg]⟩

/-- C4 witness: user 7 submitting the address `c@x` already held, verified,
by user 5. -/
theorem C4_email_ownership_witness :
    ((⟨1, "c@x", 5, true, true⟩ : EmailRec).verified = false →
      ∃ st2, process_email_data 7 ⟨"c@x", true⟩
          ⟨[⟨1, "c@x", 5, true, true⟩], [], [], 2⟩ = .ok st2 ∧
        findById st2.emails 1 = some ⟨1, "c@x", 7, true, true⟩ ∧
        st2.sentConfirmations = [] ++ ["c@x"]) ∧
    ((⟨1, "c@x", 5, true, true⟩ : EmailRec).verified = true →
      ∀ value, (∃ d ∈ value, d.email = "c@x") →
      ∃ msg, email_items_setter 7 value ⟨[⟨1, "c@x", 5, true, true⟩], [], [], 2⟩ =
        (⟨[⟨1, "c@x", 5, true, true⟩], [], [], 2⟩, some msg)) :=
  C4_email_ownership 7 ⟨[⟨1, "c@x", 5, true, true⟩], [], [], 2⟩ "c@x" true
    ⟨1, "c@x", 5, true, true⟩ (by constructor <;> decide) rfl (by decide)

/-- C5 witness: a user with valid agreements for versions 3 and 5 and an
invalidated one for 7, and a user with no valid agreement. -/
theorem C5_agreed_terms_version_witness :
    agreed_terms_version [⟨7, false⟩] = 0 ∧
    ((∃ a ∈ ([⟨3, true⟩, ⟨5, true⟩, ⟨7, false⟩] : List TermsAgreementRec).filter (·.valid),
        a.terms_version = agreed_terms_version [⟨3, true⟩, ⟨5, true⟩, ⟨7, false⟩]) ∧
      ∀ a ∈ ([⟨3, true⟩, ⟨5, true⟩, ⟨7, false⟩] : List TermsAgreementRec).filter (·.valid),
        a.terms_version ≤ agreed_terms_version [⟨3, true⟩, ⟨5, true⟩, ⟨7, false⟩]) :=
  ⟨(C5_agreed_terms_version [⟨7, false⟩]).1 rfl,
   (C5_agreed_terms_version [⟨3, true⟩, ⟨5, true⟩, ⟨7, false⟩]).2 (by decide)⟩

theorem check_rank_uniqueness_some (table : List GroupEntityRec)
    (inst : GroupEntityRec) (r : Nat) (hrr : inst.rank = some r) :
    check_rank_uniqueness table inst =
      (match (table.filter (fun x => x.rank == some r)).head? with
       | some other =>
         if other.id != inst.id then some "Group rank already ascribed, choose another"
         else none
       | none => none) := by
  unfold check_rank_uniqueness
  rw [hrr]

/-- C6: with a non-None rank, saving a `GroupEntity` raises
`ValidationError` exactly when another stored record already holds that
rank; a successful save keeps the stored ranks duplicate-free. -/
theorem C6_rank_uniqueness (table : List GroupEntityRec) (g : GroupEntityRec)
    (r : Nat) (hrr : g.rank = some r) (hu : RankUnique table) :
    ((∃ e, group_entity_save table g = .error e) ↔
      ∃ g2 ∈ table, g2.rank = g.rank ∧ g2.id ≠ g.id) ∧
    (∀ table2, group_entity_save table g = .ok table2 → RankUnique table2) := by
  have hcheck : (check_rank_uniqueness table g).isSome = true ↔
      ∃ other, (table.filter (fun x => x.rank == some r)).head? = some other ∧
        other.id ≠ g.id := by
    rw [check_rank_uniqueness_some table g r hrr]
    cases hf : table.filter (fun x => x.rank == some r) with
    | nil => simp
    | cons y ys =>
      by_cases h : y.id = g.id <;> simp [h]
  have herr : (∃ e, group_entity_save table g = .error e) ↔
      (check_rank_uniqueness table g).isSome = true := by
    unfold group_entity_save
    cases hc : check_rank_uniqueness table g with
    | some msg => simp
    | none =>
      by_cases h : table.any (fun x => x.id == g.id) = true <;> simp [h]
  have hmem_of_head : ∀ other,
      (table.filter (fun x => x.rank == some r)).head? = some other →
        other ∈ table ∧ other.rank = some r := by
    intro other h
    cases hf : table.filter (fun x => x.rank == some r) with
    | nil => rw [hf] at h; cases h
    | cons y ys =>
      rw [hf] at h
      cases h
      have hy : other ∈ table.filter (fun x => x.rank == some r) := by
        rw [hf]; exact List.mem_cons_self other ys
      obtain ⟨hmem, hp⟩ := List.mem_filter.mp hy
      exact ⟨hmem, by simpa using hp⟩
  constructor
  · rw [herr, hcheck]
    constructor
    · rintro ⟨other, hh, hne⟩
      obtain ⟨hmem, hrank⟩ := hmem_of_head other hh
      exact ⟨other, hmem, by rw [hrank, hrr], hne⟩
    · rintro ⟨g2, hg2, hg2r, hg2id⟩
      have hg2f : g2 ∈ table.filter (fun x => x.rank == some r) :=
        List.mem_filter.mpr ⟨hg2, by simp [hg2r, hrr]⟩
      cases hf : table.filter (fun x => x.rank == some r) with
      | nil => rw [hf] at hg2f; cases hg2f
      | cons y ys =>
        refine ⟨y, by simp, ?_⟩
        obtain ⟨hymem, hyrank⟩ := hmem_of_head y (by rw [hf]; rfl)
        intro hyid
        have : y.id = g2.id := hu y hymem g2 hg2 (by simp [hyrank])
          (by rw [hyrank, ← hrr, hg2r])
        exact hg2id (by rw [← this, hyid])
  · intro table2 hok
    have hcnone : check_rank_uniqueness table g = none := by
      cases hc : check_rank_uniqueness table g with
      | none => rfl
      | some msg =>
        unfold group_entity_save at hok
        rw [hc] at hok
        cases hok
    have hnoother : ∀ x ∈ table, x.rank = some r → x.id = g.id := by
      intro x hx hxr
      by_contra hne
      have : (check_rank_uniqueness table g).isSome = true := by
        rw [hcheck]
        have hxf : x ∈ table.filter (fun y => y.rank == some r) :=
          List.mem_filter.mpr ⟨hx, by simp [hxr]⟩
        cases hf : table.filter (fun y => y.rank == some r) with
        | nil => rw [hf] at hxf; cases hxf
        | cons y ys =>
          refine ⟨y, by simp, ?_⟩
          obtain ⟨hymem, hyrank⟩ := hmem_of_head y (by rw [hf]; rfl)
          intro hyid
          have : y.id = x.id := hu y hymem x hx (by simp [hyrank]) (by rw [hyrank, hxr])
          exact hne (by rw [← this, hyid])
      rw [hcnone] at this
      cases this
    have htab2 : table2 = (if table.any (fun x => x.id == g.id) = true then
        table.map (fun x => if x.id == g.id then g else x) else table ++ [g]) := by
      unfold group_entity_save at hok
      rw [hcnone] at hok
      by_cases h : table.any (fun x => x.id == g.id) = true
      · rw [if_pos h]
        rw [if_pos h] at hok
        cases hok
        rfl
      · rw [if_neg h]
        rw [if_neg h] at hok
        cases hok
        rfl
    have hmem2 : ∀ x ∈ table2, x = g ∨ (x ∈ table ∧ x.id ≠ g.id) := by
      intro x hx
      rw [htab2] at hx
      by_cases h : table.any (fun y => y.id == g.id) = true
      · rw [if_pos h] at hx
        obtain ⟨y, hy, hyx⟩ := List.mem_map.mp hx
        by_cases hyid : y.id = g.id
        · left
          rw [← hyx]
          simp [hyid]
        · right
          have hxy : x = y := by rw [← hyx]; simp [hyid]
          exact ⟨hxy ▸ hy, by rw [hxy]; exact hyid⟩
      · rw [if_neg h] at hx
        rcases List.mem_append.mp hx with hx2 | hx2
        · right
          refine ⟨hx2, ?_⟩
          intro hxid
          exact h (List.any_eq_true.mpr ⟨x, hx2, by simp [hxid]⟩)
        · left
          simpa using hx2
    intro g1 hg1 g2 hg2 hg1r hg1g2
    rcases hmem2 g1 hg1 with rfl | ⟨h1mem, h1id⟩
    · rcases hmem2 g2 hg2 with rfl | ⟨h2mem, h2id⟩
      · rfl
      · exact absurd (hnoother g2 h2mem (by rw [← hg1g2, hrr])) h2id
    · rcases hmem2 g2 hg2 with rfl | ⟨h2mem, h2id⟩
      · exact absurd (hnoother g1 h1mem (by rw [hg1g2, hrr])) h1id
      · exact hu g1 h1mem g2 h2mem hg1r hg1g2

/-- C6 witness: inserting a second record with the already-ascribed
rank 5. -/
theorem C6_rank_uniqueness_witness :
    ((∃ e, group_entity_save [⟨1, some 5⟩] ⟨2, some 5⟩ = .error e) ↔
      ∃ g2 ∈ ([⟨1, some 5⟩] : List GroupEntityRec),
        g2.rank = (⟨2, some 5⟩ : GroupEntityRec).rank ∧
        g2.id ≠ (⟨2, some 5⟩ : GroupEntityRec).id) ∧
    (∀ table2, group_entity_save [⟨1, some 5⟩] ⟨2, some 5⟩ = .ok table2 →
      RankUnique table2) :=
  C6_rank_uniqueness [⟨1, some 5⟩] ⟨2, some 5⟩ 5 rfl (by decide)


end BadgrUser

namespace SurfConext

/-- C9: the SURFconext callback completes the social login only when every
step of the authorization-code exchange succeeds; a missing `code`, a
non-200 token response, a missing `access_token`, a non-200 userinfo
response, or user data lacking `email` or `sub` each renders an
authentication error instead. -/
theorem C9_callback_error_handling (env : CallbackEnv) (st : List String)
    (hst : env.stateFields = some st) (hlen : st.length = 3) :
    (env.code = none →
      callback env = some (.authError "Server error: No userToken found in callback")) ∧
    (env.code ≠ none → env.tokenResponse.status_code ≠ 200 →
      callback env =
        some (.authError "Server error: Token endpoint error, try alternative login methods")) ∧
    (env.code ≠ none → env.tokenResponse.status_code = 200 →
      jsonGet env.tokenResponse.fields "access_token" = none →
      callback env =
        some (.authError "Server error: No access token, try alternative login methods.")) ∧
    (env.code ≠ none → env.tokenResponse.status_code = 200 →
      jsonGet env.tokenResponse.fields "access_token" ≠ none →
      env.userinfoResponse.status_code ≠ 200 →
      callback env =
        some (.authError "Server error: User info endpoint error. Try alternative login methods")) ∧
    (env.code ≠ none → env.tokenResponse.status_code = 200 →
      jsonGet env.tokenResponse.fields "access_token" ≠ none →
      env.userinfoResponse.status_code = 200 →
      (jsonGet env.userinfoResponse.fields "email" = none ∨
        jsonGet env.userinfoResponse.fields "sub" = none) →
      callback env =
        some (.authError "Sorry, your account has no email attached from SurfConext, try another login method.")) ∧
    (callback env = some .completed →
      env.code ≠ none ∧ env.tokenResponse.status_code = 200 ∧
      jsonGet env.tokenResponse.fields "access_token" ≠ none ∧
      env.userinfoResponse.status_code = 200 ∧
      jsonGet env.userinfoResponse.fields "email" ≠ none ∧
      jsonGet env.userinfoResponse.fields "sub" ≠ none) := by
  refine ⟨?_, ?_, ?_, ?_, ?_, ?_⟩
  · intro hc
    simp [callback, hst, hlen, hc]
  · intro hc ht
    obtain ⟨c, hc'⟩ := Option.ne_none_iff_exists.mp hc
    simp [callback, hst, hlen, ← hc', ht]
  · intro hc ht ha
    obtain ⟨c, hc'⟩ := Option.ne_none_iff_exists.mp hc
    simp [callback, hst, hlen, ← hc', ht, ha]
  · intro hc ht ha hu
    obtain ⟨c, hc'⟩ := Option.ne_none_iff_exists.mp hc
    obtain ⟨a, ha'⟩ := Option.ne_none_iff_exists.mp ha
    simp [callback, hst, hlen, ← hc', ht, ← ha', hu]
  · intro hc ht ha hu hmiss
    obtain ⟨c, hc'⟩ := Option.ne_none_iff_exists.mp hc
    obtain ⟨a, ha'⟩ := Option.ne_none_iff_exists.mp ha
    rcases hmiss with hm | hm <;>
      simp [callback, hst, hlen, ← hc', ht, ← ha', hu, hm]
  · intro h
    cases hc : env.code with
    | none => simp [callback, hst, hlen, hc] at h
    | some c =>
      by_cases ht : env.tokenResponse.status_code = 200
      · cases ha : jsonGet env.tokenResponse.fields "access_token" with
        | none => simp [callback, hst, hlen, hc, ht, ha] at h
        | some a =>
          by_cases hu : env.userinfoResponse.status_code = 200
          · cases he : jsonGet env.userinfoResponse.fields "email" with
            | none => simp [callback, hst, hlen, hc, ht, ha, hu, he] at h
            | some e =>
              cases hs2 : jsonGet env.userinfoResponse.fields "sub" with
              | none => simp [callback, hst, hlen, hc, ht, ha, hu, he, hs2] at h
              | some s2 =>
                exact ⟨by simp [hc], ht, by simp [ha], hu, by simp [he], by simp [hs2]⟩
          · simp [callback, hst, hlen, hc, ht, ha, hu] at h
      · simp [callback, hst, hlen, hc, ht] at h

/-- C9 witness: a fully successful exchange environment. -/
theorem C9_callback_error_handling_witness :
    (CallbackEnv.mk (some ["login", "tok", "1"]) (some "c")
        ⟨200, [("access_token", "at")]⟩ ⟨200, [("email", "e@x"), ("sub", "s")]⟩
        true).stateFields = some ["login", "tok", "1"] ∧
    (["login", "tok", "1"] : List String).length = 3 ∧
    (callback (CallbackEnv.mk (some ["login", "tok", "1"]) (some "c")
        ⟨200, [("access_token", "at")]⟩ ⟨200, [("email", "e@x"), ("sub", "s")]⟩
        true) = some .completed →
      (CallbackEnv.mk (some ["login", "tok", "1"]) (some "c")
        ⟨200, [("access_token", "at")]⟩ ⟨200, [("email", "e@x"), ("sub", "s")]⟩
        true).code ≠ none ∧ (200 : Nat) = 200 ∧
      jsonGet [("access_token", "at")] "access_token" ≠ none ∧ (200 : Nat) = 200 ∧
      jsonGet [("email", "e@x"), ("sub", "s")] "email" ≠ none ∧
      jsonGet [("email", "e@x"), ("sub", "s")] "sub" ≠ none) :=
  ⟨rfl, by decide,
   (C9_callback_error_handling _ ["login", "tok", "1"] rfl (by decide)).2.2.2.2.2⟩

end SurfConext
